import Mathlib

/-
Verification development for the media-notes transcript subsystem.

Embedding conventions:
- JavaScript strings are modelled as List Char.
- JavaScript numbers are modelled as the rationals; Math.floor is modelled
  by jsFloor below, which agrees with the integer floor on every rational.
- Fallible operations (URL parsing, NaN-producing numeric parsing) are
  modelled with Option.

Sources embedded here:
- src/components/media-frame.tsx: splitIntoSentences,
  groupTranscriptIntoParagraphs, updateCurrentPosition, the auto-scroll
  effect and animateScroll, getVideoId, isYouTubeUrl.
- src/main.tsx: formatTimestamp, convertTimestampToSeconds.
-/

namespace MediaNotes

/-! ## Character and string primitives -/

/-- Model of the whitespace class used by the regex \s and by trim,
restricted to the ASCII whitespace characters. -/
def isWsChar (c : Char) : Bool :=
  c = ' ' || c = '\t' || c = '\n' || c = '\r' || c = '\x0b' || c = '\x0c'

/-- The sentence-terminal punctuation class [.!?] of splitIntoSentences. -/
def isSentencePunct (c : Char) : Bool :=
  c = '.' || c = '!' || c = '?'

/-- Model of String.prototype.trim: drop whitespace from both ends. -/
def trimWs (l : List Char) : List Char :=
  ((l.dropWhile isWsChar).reverse.dropWhile isWsChar).reverse

/-- Model of String.prototype.split with a single-character separator.
Always returns at least one piece, like the JavaScript original. -/
def splitOnChar (sep : Char) : List Char → List (List Char)
  | [] => [[]]
  | c :: rest =>
    if c = sep then [] :: splitOnChar sep rest
    else
      match splitOnChar sep rest with
      | [] => [[c]]
      | p :: ps => (c :: p) :: ps

/-- Does the second list start with the first list? (helper for substring
search). -/
def listStartsWith : List Char → List Char → Bool
  | [], _ => true
  | _ :: _, [] => false
  | c :: cs, d :: ds => c = d && listStartsWith cs ds

/-- Model of String.prototype.includes: contiguous substring test.
First argument is the haystack, second the needle. -/
def jsIncludes (hay needle : List Char) : Bool :=
  match hay with
  | [] => needle.isEmpty
  | _ :: rest => listStartsWith needle hay || jsIncludes rest needle

/-! ## Decimal digit rendering and parsing -/

/-- The decimal digit characters; callers only apply this to values
below ten. -/
def digitChar (n : Nat) : Char :=
  if n = 0 then '0' else if n = 1 then '1' else if n = 2 then '2'
  else if n = 3 then '3' else if n = 4 then '4' else if n = 5 then '5'
  else if n = 6 then '6' else if n = 7 then '7' else if n = 8 then '8'
  else '9'

/-- Numeric value of a decimal digit character. -/
def digitVal (c : Char) : Nat := c.toNat - 48

/-- Fuel-driven accumulator loop producing the decimal digits of a natural
number, most significant first. The fuel argument makes the recursion
structural so that the kernel can evaluate it; fuel n + 1 always
suffices. -/
def natDigitsAux : Nat → Nat → List Char → List Char
  | 0, _, acc => acc
  | fuel + 1, n, acc =>
    if n < 10 then digitChar n :: acc
    else natDigitsAux fuel (n / 10) (digitChar (n % 10) :: acc)

/-- Decimal rendering of a natural number, as produced by JavaScript
template interpolation of a non-negative integer. -/
def natDigits (n : Nat) : List Char := natDigitsAux (n + 1) n []

/-- Decimal rendering of an integer. -/
def intDigits (i : Int) : List Char :=
  if i < 0 then '-' :: natDigits (-i).toNat else natDigits i.toNat

/-- Left fold reading a run of decimal digits into a natural number. -/
def parseDigitsFrom (a : Nat) : List Char → Nat
  | [] => a
  | c :: rest => parseDigitsFrom (a * 10 + digitVal c) rest

/-- Value of a string of decimal digits. -/
def parseDigits (l : List Char) : Nat := parseDigitsFrom 0 l

/-- Model of the JavaScript Number conversion, restricted to the strings
of decimal digits that the timestamp formatter emits; every other string
is mapped to none, standing for NaN. -/
def jsNumber (l : List Char) : Option ℚ :=
  if l ≠ [] ∧ l.all Char.isDigit then some ((parseDigits l : ℕ) : ℚ) else none

/-- NaN-propagating addition on modelled JavaScript numbers. -/
def optAdd : Option ℚ → Option ℚ → Option ℚ
  | some a, some b => some (a + b)
  | _, _ => none

/-- NaN-propagating multiplication by a constant. -/
def optMul (a : Option ℚ) (k : ℚ) : Option ℚ := a.map (· * k)

/-- Model of Math.floor on a rational: numerator divided by denominator
with integer division, which rounds toward negative infinity for the
positive denominators of reduced rationals. -/
def jsFloor (q : ℚ) : Int := q.num / (q.den : Int)

/-- Two-digit zero padding of a natural number, the value-level shape of
padTwo on non-negative inputs. -/
def natPadTwo (k : Nat) : List Char :=
  if k < 10 then '0' :: natDigits k else natDigits k

/-! ## Data model of the transcript subsystem -/

/-- One timed caption line as delivered by the transcript fetcher. -/
structure TranscriptLine where
  text : List Char
  offset : ℚ
  duration : ℚ
deriving DecidableEq

/-- A sentence with interpolated timing (media-frame.tsx). -/
structure TranscriptSentence where
  text : List Char
  startOffset : ℚ
  endOffset : ℚ
  originalIndex : Nat
deriving DecidableEq

/-- A paragraph of consecutive sentences with aggregate timing
(media-frame.tsx). -/
structure TranscriptParagraph where
  sentences : List TranscriptSentence
  startOffset : ℚ
  endOffset : ℚ
deriving DecidableEq

/-! ## Sentence Segmenter -/

/-- Is the next character a whitespace character? Used to detect the
regex pattern of punctuation followed by whitespace. -/
def headIsWs : List Char → Bool
  | [] => false
  | d :: _ => isWsChar d

/-- Scan implementing text.replace with the global pattern of a
sentence-terminal punctuation character followed by a maximal run of
whitespace, replaced by the punctuation character and the bar sentinel.
The Boolean state records that the scan is inside the whitespace run of
a match, which the replacement swallows. -/
def replacePunctWsAux : Bool → List Char → List Char
  | _, [] => []
  | skip, c :: rest =>
    if skip && isWsChar c then replacePunctWsAux true rest
    else if isSentencePunct c && headIsWs rest then
      c :: '|' :: replacePunctWsAux true rest
    else c :: replacePunctWsAux false rest

/-- The replace step of splitIntoSentences. -/
def replacePunctWs (l : List Char) : List Char := replacePunctWsAux false l

/-- splitIntoSentences from media-frame.tsx: mark sentence boundaries,
split on the bar sentinel, trim each piece, drop empty pieces. -/
def splitIntoSentences (text : List Char) : List (List Char) :=
  (((splitOnChar '|' (replacePunctWs text)).map trimWs).filter
    fun s => decide (0 < s.length))

/-- Indexed construction of the sentences of one line: sentence number i
starts at offset + i * d and ends one duration share later, exactly as
the forEach loop of groupTranscriptIntoParagraphs pushes them. -/
def buildSentences (idx : Nat) (offset d : ℚ) : Nat → List (List Char) → List TranscriptSentence
  | _, [] => []
  | i, t :: rest =>
    { text := t
      startOffset := offset + (i : ℚ) * d
      endOffset := offset + (i : ℚ) * d + d
      originalIndex := idx } :: buildSentences idx offset d (i + 1) rest

/-- All sentences produced from one caption line, with the line duration
split evenly across the sentences of that line. -/
def sentencesOfLine (idx : Nat) (line : TranscriptLine) : List TranscriptSentence :=
  let ls := splitIntoSentences line.text
  buildSentences idx line.offset (line.duration / (ls.length : ℚ)) 0 ls

/-- The sentence streams of all lines, concatenated in order with their
line indices. -/
def sentencesFromLines : Nat → List TranscriptLine → List TranscriptSentence
  | _, [] => []
  | i, l :: rest => sentencesOfLine i l ++ sentencesFromLines (i + 1) rest

/-! ## Paragraph Grouper -/

/-- Paragraph built from a chunk of sentences: aggregate offsets come
from the first and last sentence of the chunk (the source indexes a
chunk it knows to be non-empty; the default is never reached). -/
def mkParagraph (group : List TranscriptSentence) : TranscriptParagraph :=
  { sentences := group
    startOffset := (group.head?.map TranscriptSentence.startOffset).getD 0
    endOffset := (group.getLast?.map TranscriptSentence.endOffset).getD 0 }

/-- The slicing loop of groupTranscriptIntoParagraphs: consecutive chunks
of three sentences, the final chunk holding the remainder. -/
def chunkParagraphs : List TranscriptSentence → List TranscriptParagraph
  | [] => []
  | [a] => [mkParagraph [a]]
  | [a, b] => [mkParagraph [a, b]]
  | a :: b :: c :: rest => mkParagraph [a, b, c] :: chunkParagraphs rest

/-- groupTranscriptIntoParagraphs from media-frame.tsx. -/
def groupTranscriptIntoParagraphs (lines : List TranscriptLine) : List TranscriptParagraph :=
  chunkParagraphs (sentencesFromLines 0 lines)

/-! ## Position Locator -/

/-- The inclusive containment test of updateCurrentPosition at sentence
level. -/
def inRangeS (t : ℚ) (s : TranscriptSentence) : Bool :=
  decide (s.startOffset ≤ t) && decide (t ≤ s.endOffset)

/-- The inclusive containment test of updateCurrentPosition at paragraph
level. -/
def inRangeP (t : ℚ) (p : TranscriptParagraph) : Bool :=
  decide (p.startOffset ≤ t) && decide (t ≤ p.endOffset)

/-- The inner loop of updateCurrentPosition: index of the first sentence
containing the time, if any. -/
def firstSentenceIdx (t : ℚ) : List TranscriptSentence → Option Nat
  | [] => none
  | s :: rest =>
    if inRangeS t s then some 0 else (firstSentenceIdx t rest).map (· + 1)

/-- The outer loop of updateCurrentPosition: first paragraph containing
the time, together with its index. -/
def firstParagraphHit (t : ℚ) : List TranscriptParagraph → Option (Nat × TranscriptParagraph)
  | [] => none
  | p :: rest =>
    if inRangeP t p then some (0, p)
    else (firstParagraphHit t rest).map fun x => (x.1 + 1, x.2)

/-- updateCurrentPosition from media-frame.tsx as a pure function from
the paragraph list and the current time in milliseconds to the pair of
active indices, with -1 denoting no match at that level. -/
def updateCurrentPosition (ps : List TranscriptParagraph) (currentTimeMs : ℚ) : Int × Int :=
  match firstParagraphHit currentTimeMs ps with
  | none => (-1, -1)
  | some (i, p) =>
    match firstSentenceIdx currentTimeMs p.sentences with
    | none => ((i : Int), -1)
    | some j => ((i : Int), (j : Int))

/-! ## Timestamp Formatter and Parser (src/main.tsx) -/

/-- Two-digit zero padding of a rendered integer, as in the formatter:
values below ten get a leading zero character. -/
def padTwo (i : Int) : List Char :=
  if i < 10 then '0' :: intDigits i else intDigits i

/-- formatTimestamp from main.tsx. The undefined input is modelled by
none and yields the empty string; hours, minutes and seconds are the
floors computed by the source, rendered as hours (no padding, omitted
together with its colon when not positive), then two-digit minutes and
seconds. -/
def formatTimestamp (timestamp : Option ℚ) : List Char :=
  match timestamp with
  | none => []
  | some ts =>
    let hours : Int := jsFloor (ts / 3600)
    let minutes : Int := jsFloor ((ts - (hours : ℚ) * 3600) / 60)
    let seconds : Int := jsFloor (ts - (hours : ℚ) * 3600 - (minutes : ℚ) * 60)
    (if 0 < hours then intDigits hours ++ [':'] else [])
      ++ padTwo minutes ++ [':'] ++ padTwo seconds

/-- convertTimestampToSeconds from main.tsx: split on colons, convert
each part with Number, then combine three parts as hours, minutes,
seconds, two parts as minutes, seconds, and otherwise take the first
part; the running sum starts at zero. NaN propagates through optAdd and
optMul. -/
def convertTimestampToSeconds (timestamp : List Char) : Option ℚ :=
  match (splitOnChar ':' timestamp).map jsNumber with
  | [a, b, c] => optAdd (optAdd (optAdd (some 0) (optMul a 3600)) (optMul b 60)) c
  | [a, b] => optAdd (optAdd (some 0) (optMul a 60)) b
  | ps => optAdd (some 0) (ps.headD none)

/-- Truncation toward zero of a rational, the reading of the phrase
about truncating a fractional part; follows the wording of the spec,
to be compared with the floor-based source. -/
def truncQ (q : ℚ) : Int := if 0 ≤ q then ⌊q⌋ else ⌈q⌉

/-- Modelled from the spec wording of the formatter contract: truncate
the fractional part, then render hours, two-digit minutes and two-digit
seconds from the truncated value. Stated for comparison against
formatTimestamp, which floors instead of truncating. -/
def formatTimestampTruncSpec (q : ℚ) : List Char :=
  let n : Int := truncQ q
  let hours : Int := n / 3600
  let minutes : Int := n % 3600 / 60
  let seconds : Int := n % 60
  (if 0 < hours then intDigits hours ++ [':'] else [])
    ++ padTwo minutes ++ [':'] ++ padTwo seconds

/-! ## Scroll Animator (auto-scroll effect of media-frame.tsx) -/

/-- The fixed upward bias constant of the auto-scroll effect, named
yOffset in the source. -/
def yOffsetScroll : ℚ := -100

/-- The layout measurements the auto-scroll effect reads from the
container and the active paragraph element. -/
structure ScrollMeasurements where
  containerHeight : ℚ
  contentHeight : ℚ
  elementRelativeTop : ℚ
  elementHeight : ℚ
  currentScrollTop : ℚ
deriving DecidableEq

/-- The raw scroll target of the auto-scroll effect, before clamping. -/
def targetScrollTop (m : ScrollMeasurements) : ℚ :=
  m.elementRelativeTop - m.containerHeight / 2 + m.elementHeight / 2 - yOffsetScroll

/-- The maximal scroll offset of the container. -/
def maxScrollTop (m : ScrollMeasurements) : ℚ :=
  max 0 (m.contentHeight - m.containerHeight)

/-- The clamped scroll target of the auto-scroll effect. -/
def clampedScrollTop (m : ScrollMeasurements) : ℚ :=
  max 0 (min (targetScrollTop m) (maxScrollTop m))

/-- The decision logic of the auto-scroll effect: some target when an
animation toward that clamped target is started, none when the update
is skipped, either because the content does not overflow the container
or because the clamped target is within ten pixels of the current
offset. -/
def computeScrollTarget (m : ScrollMeasurements) : Option ℚ :=
  if m.containerHeight < m.contentHeight then
    if 10 < |clampedScrollTop m - m.currentScrollTop| then
      some (clampedScrollTop m)
    else none
  else none

/-- The easing curve of animateScroll. -/
def easeInOutQuad (t : ℚ) : ℚ :=
  if t < 1 / 2 then 2 * t * t else -1 + (4 - 2 * t) * t

/-- The fixed animation duration of animateScroll, in milliseconds. -/
def animDuration : ℚ := 300

/-- One frame of animateScroll: given the start time of the animation,
the scroll offset and distance captured when it started, and the current
frame time, return the scroll offset written on this frame and whether
another frame is requested. The progress fraction is clamped to one and
the chain continues exactly while progress is below one. -/
def animFrame (startTime currentScrollTop scrollDistance now : ℚ) : ℚ × Bool :=
  (currentScrollTop
      + scrollDistance * easeInOutQuad (min ((now - startTime) / animDuration) 1),
    decide (min ((now - startTime) / animDuration) 1 < 1))

/-! ## URL classifiers (media-frame.tsx) -/

/-- The fields of a parsed WHATWG URL that getVideoId reads. The URL
constructor itself is a platform built-in, modelled abstractly by its
result: none stands for the constructor throwing on an unparseable
string, which the source catches. -/
structure URLParts where
  hostname : List Char
  pathname : List Char
  searchParams : List (List Char × List Char)
deriving DecidableEq

/-- The youtube.com hostname fragment tested by the classifiers. -/
def youtubeComNeedle : List Char := "youtube.com".toList

/-- The youtu.be hostname fragment tested by the classifiers. -/
def youtuBeNeedle : List Char := "youtu.be".toList

/-- Model of URLSearchParams.get: value of the first parameter with the
given key, null when absent. -/
def searchParamsGet (params : List (List Char × List Char)) (key : List Char) : Option (List Char) :=
  (params.find? fun p => decide (p.1 = key)).map Prod.snd

/-- getVideoId from media-frame.tsx over the modelled parse result. -/
def getVideoId (parsed : Option URLParts) : Option (List Char) :=
  match parsed with
  | none => none
  | some u =>
    if jsIncludes u.hostname youtubeComNeedle
        || jsIncludes u.hostname youtuBeNeedle then
      if jsIncludes u.hostname youtuBeNeedle then
        some (u.pathname.drop 1)
      else
        searchParamsGet u.searchParams ("v".toList)
    else none

/-- isYouTubeUrl from media-frame.tsx over the modelled parse result. -/
def isYouTubeUrl (parsed : Option URLParts) : Bool :=
  match parsed with
  | none => false
  | some u =>
    jsIncludes u.hostname youtubeComNeedle
      || jsIncludes u.hostname youtuBeNeedle

/-! ## Claims about the Scroll Animator -/

/-- C6: a scroll update does nothing when the content does not overflow
the container; when an animation starts, its target is the centering
formula clamped to the valid scroll range; and when the clamped target
is within ten pixels of the current offset, no animation is started, in
particular for a target four pixels away. -/
theorem claim6_scroll_target :
    (∀ m : ScrollMeasurements, m.contentHeight ≤ m.containerHeight →
      computeScrollTarget m = none)
    ∧ (∀ (m : ScrollMeasurements) (t : ℚ), computeScrollTarget m = some t →
        t = max 0 (min
              (m.elementRelativeTop - m.containerHeight / 2 + m.elementHeight / 2 - yOffsetScroll)
              (max 0 (m.contentHeight - m.containerHeight)))
          ∧ 0 ≤ t ∧ t ≤ max 0 (m.contentHeight - m.containerHeight))
    ∧ (∀ m : ScrollMeasurements, |clampedScrollTop m - m.currentScrollTop| ≤ 10 →
        computeScrollTarget m = none)
    ∧ computeScrollTarget ⟨500, 1000, 129, 50, 0⟩ = none := by
  refine ⟨?_, ?_, ?_, ?_⟩
  · intro m h
    unfold computeScrollTarget
    rw [if_neg (not_lt.2 h)]
  · intro m t h
    unfold computeScrollTarget at h
    split at h
    · split at h
      · rw [Option.some.injEq] at h
        subst h
        refine ⟨rfl, le_max_left _ _, ?_⟩
        exact max_le (le_max_left _ _) (min_le_right _ _)
      · exact Option.noConfusion h
    · exact Option.noConfusion h
  · intro m h
    unfold computeScrollTarget
    split
    · rw [if_neg (not_lt.2 h)]
    · rfl
  · unfold computeScrollTarget clampedScrollTop targetScrollTop maxScrollTop yOffsetScroll
    norm_num

/-- C6 witness: instantiating the skip conditions and the clamping
characterization at concrete measurements. -/
theorem claim6_witness :
    computeScrollTarget ⟨500, 400, 0, 0, 0⟩ = none
    ∧ computeScrollTarget ⟨500, 1000, 129, 50, 8⟩ = none := by
  constructor
  · exact claim6_scroll_target.1 ⟨500, 400, 0, 0, 0⟩ (by norm_num)
  · refine claim6_scroll_target.2.2.1 ⟨500, 1000, 129, 50, 8⟩ ?_
    unfold clampedScrollTop targetScrollTop maxScrollTop yOffsetScroll
    norm_num

/-- C7: the easing curve reaches one at progress one; every frame writes
the linear interpolation between the captured offset and the target by
the eased clamped progress fraction; once the elapsed time reaches the
fixed duration the frame writes exactly the captured offset plus the
whole distance and requests no further frame, so the chain
self-terminates on the clamped target; and before the duration elapses
the chain continues. -/
theorem claim7_scroll_animation :
    easeInOutQuad 1 = 1
    ∧ (∀ st pos dist now : ℚ,
        (animFrame st pos dist now).1
          = pos + dist * easeInOutQuad (min ((now - st) / animDuration) 1))
    ∧ (∀ st pos dist now : ℚ, animDuration ≤ now - st →
        animFrame st pos dist now = (pos + dist, false))
    ∧ (∀ st pos dist now : ℚ, 0 ≤ now - st → now - st < animDuration →
        (animFrame st pos dist now).2 = true)
    ∧ (∀ (m : ScrollMeasurements) (t st now : ℚ), computeScrollTarget m = some t →
        animDuration ≤ now - st →
        (animFrame st m.currentScrollTop (t - m.currentScrollTop) now).1 = t) := by
  have hease : easeInOutQuad 1 = 1 := by
    unfold easeInOutQuad
    norm_num
  have hdone : ∀ st pos dist now : ℚ, animDuration ≤ now - st →
      animFrame st pos dist now = (pos + dist, false) := by
    intro st pos dist now h
    have hdur : (0 : ℚ) < animDuration := by norm_num [animDuration]
    have hprog : min ((now - st) / animDuration) 1 = 1 := by
      refine min_eq_right ?_
      rw [le_div_iff₀ hdur]
      simpa using h
    unfold animFrame
    rw [hprog, hease]
    norm_num
  refine ⟨hease, ?_, hdone, ?_, ?_⟩
  · intro st pos dist now
    rfl
  · intro st pos dist now _ h
    have hdur : (0 : ℚ) < animDuration := by norm_num [animDuration]
    have hlt : (now - st) / animDuration < 1 := (div_lt_one hdur).2 h
    have hprog : min ((now - st) / animDuration) 1 = (now - st) / animDuration :=
      min_eq_left hlt.le
    unfold animFrame
    rw [hprog]
    simpa using hlt
  · intro m t st now _ h
    rw [hdone st m.currentScrollTop (t - m.currentScrollTop) now h]
    ring

/-- C7 witness: a completed animation over a 200 pixel distance lands
exactly on the clamped target. -/
theorem claim7_witness :
    animFrame 0 0 200 300 = (200, false)
    ∧ (animFrame 0 (0 : ℚ) (200 - 0) 300).1 = 200 := by
  constructor
  · have h := claim7_scroll_animation.2.2.1 0 0 200 300 (by norm_num [animDuration])
    simpa using h
  · refine claim7_scroll_animation.2.2.2.2 ⟨500, 1000, 325, 50, 0⟩ 200 0 300 ?_ ?_
    · unfold computeScrollTarget clampedScrollTop targetScrollTop maxScrollTop yOffsetScroll
      norm_num
    · norm_num [animDuration]

/-! ## Lemmas about the Position Locator loops -/

theorem firstSentenceIdx_eq_none {t : ℚ} {ss : List TranscriptSentence} :
    firstSentenceIdx t ss = none ↔ ∀ s ∈ ss, inRangeS t s = false := by
  induction ss with
  | nil => simp [firstSentenceIdx]
  | cons s rest ih =>
    cases hs : inRangeS t s with
    | true => simp [firstSentenceIdx, hs]
    | false => simp [firstSentenceIdx, hs, Option.map_eq_none', ih]

theorem firstSentenceIdx_spec {t : ℚ} {ss : List TranscriptSentence} {k : Nat}
    (h : firstSentenceIdx t ss = some k) :
    (∃ s, ss[k]? = some s ∧ inRangeS t s = true)
    ∧ ∀ j, j < k → ∀ s, ss[j]? = some s → inRangeS t s = false := by
  induction ss generalizing k with
  | nil => simp [firstSentenceIdx] at h
  | cons s rest ih =>
    cases hs : inRangeS t s with
    | true =>
      rw [firstSentenceIdx, if_pos hs, Option.some.injEq] at h
      subst h
      exact ⟨⟨s, List.getElem?_cons_zero, hs⟩, fun j hj => absurd hj (Nat.not_lt_zero j)⟩
    | false =>
      rw [firstSentenceIdx, if_neg (by simp [hs]), Option.map_eq_some'] at h
      obtain ⟨m, hm, hmk⟩ := h
      subst hmk
      obtain ⟨⟨sm, hsm, hr⟩, hfirst⟩ := ih hm
      refine ⟨⟨sm, by simpa using hsm, hr⟩, ?_⟩
      intro j hj q hq
      cases j with
      | zero =>
        rw [List.getElem?_cons_zero, Option.some.injEq] at hq
        subst hq
        exact hs
      | succ j =>
        rw [List.getElem?_cons_succ] at hq
        exact hfirst j (by omega) q hq

theorem firstSentenceIdx_first {t : ℚ} :
    ∀ {ss : List TranscriptSentence} {k : Nat} {sk : TranscriptSentence},
    ss[k]? = some sk → inRangeS t sk = true →
    (∀ j, j < k → ∀ s, ss[j]? = some s → inRangeS t s = false) →
    firstSentenceIdx t ss = some k := by
  intro ss
  induction ss with
  | nil => intro k sk hk; simp at hk
  | cons s rest ih =>
    intro k sk hk hr hfirst
    cases k with
    | zero =>
      rw [List.getElem?_cons_zero, Option.some.injEq] at hk
      subst hk
      rw [firstSentenceIdx, if_pos hr]
    | succ k =>
      have hs : inRangeS t s = false :=
        hfirst 0 (Nat.succ_pos k) s List.getElem?_cons_zero
      rw [List.getElem?_cons_succ] at hk
      rw [firstSentenceIdx, if_neg (by simp [hs]),
        ih hk hr fun j hj q hq => hfirst (j + 1) (by omega) q (by simpa using hq)]
      rfl

theorem firstParagraphHit_eq_none {t : ℚ} {ps : List TranscriptParagraph} :
    firstParagraphHit t ps = none ↔ ∀ p ∈ ps, inRangeP t p = false := by
  induction ps with
  | nil => simp [firstParagraphHit]
  | cons p rest ih =>
    cases hp : inRangeP t p with
    | true => simp [firstParagraphHit, hp]
    | false => simp [firstParagraphHit, hp, Option.map_eq_none', ih]

theorem firstParagraphHit_spec {t : ℚ} {ps : List TranscriptParagraph} {i : Nat}
    {p : TranscriptParagraph} (h : firstParagraphHit t ps = some (i, p)) :
    ps[i]? = some p ∧ inRangeP t p = true
    ∧ ∀ j, j < i → ∀ q, ps[j]? = some q → inRangeP t q = false := by
  induction ps generalizing i with
  | nil => simp [firstParagraphHit] at h
  | cons q rest ih =>
    cases hq : inRangeP t q with
    | true =>
      rw [firstParagraphHit, if_pos hq, Option.some.injEq] at h
      injection h with hi hp
      subst hi
      subst hp
      exact ⟨List.getElem?_cons_zero, hq, fun j hj => absurd hj (Nat.not_lt_zero j)⟩
    | false =>
      rw [firstParagraphHit, if_neg (by simp [hq]), Option.map_eq_some'] at h
      obtain ⟨⟨m, pm⟩, hm, hmk⟩ := h
      injection hmk with hi hp
      subst hp
      obtain ⟨hget, hr, hfirst⟩ := ih hm
      subst hi
      refine ⟨by simpa using hget, hr, ?_⟩
      intro j hj r hr2
      cases j with
      | zero =>
        rw [List.getElem?_cons_zero, Option.some.injEq] at hr2
        subst hr2
        exact hq
      | succ j =>
        rw [List.getElem?_cons_succ] at hr2
        exact hfirst j (by omega) r hr2

theorem firstParagraphHit_first {t : ℚ} :
    ∀ {ps : List TranscriptParagraph} {k : Nat} {pk : TranscriptParagraph},
    ps[k]? = some pk → inRangeP t pk = true →
    (∀ j, j < k → ∀ q, ps[j]? = some q → inRangeP t q = false) →
    firstParagraphHit t ps = some (k, pk) := by
  intro ps
  induction ps with
  | nil => intro k pk hk; simp at hk
  | cons p rest ih =>
    intro k pk hk hr hfirst
    cases k with
    | zero =>
      rw [List.getElem?_cons_zero, Option.some.injEq] at hk
      subst hk
      rw [firstParagraphHit, if_pos hr]
    | succ k =>
      have hp : inRangeP t p = false :=
        hfirst 0 (Nat.succ_pos k) p List.getElem?_cons_zero
      rw [List.getElem?_cons_succ] at hk
      rw [firstParagraphHit, if_neg (by simp [hp]),
        ih hk hr fun j hj q hq => hfirst (j + 1) (by omega) q (by simpa using hq)]
      rfl

/-! ## Claims about the Position Locator -/

/-- C3: the locator selects the first paragraph, in index order, whose
inclusive offset range contains the current time, and within it the
first sentence by the same rule; consequently at a boundary instant
shared by the end of paragraph k and the start of paragraph k + 1, the
located paragraph is k whenever the scan reaches that pair, and the
analogous earlier-wins rule holds for adjacent sentences within the
located paragraph. -/
theorem claim3_locator_first_match :
    (∀ (ps : List TranscriptParagraph) (t : ℚ) (i : Nat) (p : TranscriptParagraph),
        firstParagraphHit t ps = some (i, p) →
        (updateCurrentPosition ps t).1 = (i : Int)
        ∧ ps[i]? = some p ∧ inRangeP t p = true
        ∧ ∀ j, j < i → ∀ q, ps[j]? = some q → inRangeP t q = false)
    ∧ (∀ (ps : List TranscriptParagraph) (t : ℚ) (i : Nat)
        (p : TranscriptParagraph) (k : Nat),
        firstParagraphHit t ps = some (i, p) →
        firstSentenceIdx t p.sentences = some k →
        (updateCurrentPosition ps t).2 = (k : Int)
        ∧ (∃ s, p.sentences[k]? = some s ∧ inRangeS t s = true)
        ∧ ∀ j, j < k → ∀ s, p.sentences[j]? = some s → inRangeS t s = false)
    ∧ (∀ (ps : List TranscriptParagraph) (t : ℚ) (k : Nat)
        (pk pk1 : TranscriptParagraph),
        ps[k]? = some pk → ps[k + 1]? = some pk1 →
        pk.endOffset = t → pk1.startOffset = t → pk.startOffset ≤ t →
        (∀ j, j < k → ∀ q, ps[j]? = some q → inRangeP t q = false) →
        (updateCurrentPosition ps t).1 = (k : Int))
    ∧ (∀ (ps : List TranscriptParagraph) (t : ℚ) (i : Nat)
        (p : TranscriptParagraph) (k : Nat) (sk sk1 : TranscriptSentence),
        firstParagraphHit t ps = some (i, p) →
        p.sentences[k]? = some sk → p.sentences[k + 1]? = some sk1 →
        sk.endOffset = t → sk1.startOffset = t → sk.startOffset ≤ t →
        (∀ j, j < k → ∀ s, p.sentences[j]? = some s → inRangeS t s = false) →
        (updateCurrentPosition ps t).2 = (k : Int)) := by
  have hfst : ∀ (ps : List TranscriptParagraph) (t : ℚ) (i : Nat)
      (p : TranscriptParagraph), firstParagraphHit t ps = some (i, p) →
      (updateCurrentPosition ps t).1 = (i : Int) := by
    intro ps t i p h
    simp only [updateCurrentPosition.eq_def, h]
    cases hfs : firstSentenceIdx t p.sentences <;> simp [hfs]
  have hsnd : ∀ (ps : List TranscriptParagraph) (t : ℚ) (i : Nat)
      (p : TranscriptParagraph) (k : Nat), firstParagraphHit t ps = some (i, p) →
      firstSentenceIdx t p.sentences = some k →
      (updateCurrentPosition ps t).2 = (k : Int) := by
    intro ps t i p k h hk
    simp [updateCurrentPosition.eq_def, h, hk]
  refine ⟨?_, ?_, ?_, ?_⟩
  · intro ps t i p h
    exact ⟨hfst ps t i p h, firstParagraphHit_spec h⟩
  · intro ps t i p k h hk
    exact ⟨hsnd ps t i p k h hk, firstSentenceIdx_spec hk⟩
  · intro ps t k pk pk1 hk _hk1 hend _hstart1 hstart hfirst
    have hr : inRangeP t pk = true := by
      unfold inRangeP
      rw [hend]
      simp [hstart]
    exact hfst ps t k pk (firstParagraphHit_first hk hr hfirst)
  · intro ps t i p k sk sk1 h hk _hk1 hend _hstart1 hstart hfirst
    have hr : inRangeS t sk = true := by
      unfold inRangeS
      rw [hend]
      simp [hstart]
    exact hsnd ps t i p k h (firstSentenceIdx_first hk hr hfirst)

/-- C3 witness: at the shared boundary instant 10 of two adjacent
paragraphs the earlier paragraph is located, and at the shared boundary
instant 5 of two adjacent sentences the earlier sentence is located. -/
theorem claim3_witness :
    (updateCurrentPosition
      [⟨[⟨[], 0, 10, 0⟩], 0, 10⟩, ⟨[⟨[], 10, 20, 0⟩], 10, 20⟩] 10).1 = 0
    ∧ (updateCurrentPosition
      [⟨[⟨[], 0, 5, 0⟩, ⟨[], 5, 10, 0⟩], 0, 10⟩] 5).2 = 0 := by
  constructor
  · exact claim3_locator_first_match.2.2.1
      [⟨[⟨[], 0, 10, 0⟩], 0, 10⟩, ⟨[⟨[], 10, 20, 0⟩], 10, 20⟩] 10 0
      ⟨[⟨[], 0, 10, 0⟩], 0, 10⟩ ⟨[⟨[], 10, 20, 0⟩], 10, 20⟩
      (by decide) (by decide) (by decide) (by decide) (by decide)
      (fun j hj => absurd hj (Nat.not_lt_zero j))
  · exact claim3_locator_first_match.2.2.2
      [⟨[⟨[], 0, 5, 0⟩, ⟨[], 5, 10, 0⟩], 0, 10⟩] 5 0
      ⟨[⟨[], 0, 5, 0⟩, ⟨[], 5, 10, 0⟩], 0, 10⟩ 0 ⟨[], 0, 5, 0⟩ ⟨[], 5, 10, 0⟩
      (by decide) (by decide) (by decide) (by decide) (by decide) (by decide)
      (fun j hj => absurd hj (Nat.not_lt_zero j))

/-- C4: when the current time lies in no paragraph range the locator
yields the pair of minus ones, and when the located paragraph contains
the time but none of its sentence intervals does, the sentence level
alone is minus one. -/
theorem claim4_locator_no_match :
    (∀ (ps : List TranscriptParagraph) (t : ℚ),
        (∀ p ∈ ps, inRangeP t p = false) → updateCurrentPosition ps t = (-1, -1))
    ∧ (∀ (ps : List TranscriptParagraph) (t : ℚ) (i : Nat) (p : TranscriptParagraph),
        firstParagraphHit t ps = some (i, p) →
        (∀ s ∈ p.sentences, inRangeS t s = false) →
        updateCurrentPosition ps t = ((i : Int), -1)) := by
  constructor
  · intro ps t h
    simp [updateCurrentPosition.eq_def, firstParagraphHit_eq_none.2 h]
  · intro ps t i p h hs
    simp [updateCurrentPosition.eq_def, h, firstSentenceIdx_eq_none.2 hs]

/-- C4 witness: a time outside both paragraphs yields the minus-one
pair, and a time inside a paragraph but outside its only sentence
interval yields minus one at sentence level only. -/
theorem claim4_witness :
    updateCurrentPosition
      [⟨[⟨[], 0, 10, 0⟩], 0, 10⟩, ⟨[⟨[], 10, 20, 0⟩], 10, 20⟩] 50 = (-1, -1)
    ∧ updateCurrentPosition [⟨[⟨[], 2, 3, 0⟩], 0, 10⟩] 5 = (0, -1) := by
  constructor
  · exact claim4_locator_no_match.1
      [⟨[⟨[], 0, 10, 0⟩], 0, 10⟩, ⟨[⟨[], 10, 20, 0⟩], 10, 20⟩] 50 (by decide)
  · exact claim4_locator_no_match.2 [⟨[⟨[], 2, 3, 0⟩], 0, 10⟩] 5 0
      ⟨[⟨[], 2, 3, 0⟩], 0, 10⟩ (by decide) (by decide)

/-! ## Claims about the URL classifiers -/

/-- C10: the classifiers are total over the modelled parse result: an
unparseable string yields none and false; a parseable URL whose hostname
contains neither youtube.com nor youtu.be yields none; a hostname
containing youtu.be yields the pathname with its first character (the
leading slash) removed; otherwise the first value of the v query
parameter is returned, none when absent. -/
theorem claim10_url_classifiers :
    getVideoId none = none
    ∧ isYouTubeUrl none = false
    ∧ (∀ u : URLParts, jsIncludes u.hostname youtubeComNeedle = false →
        jsIncludes u.hostname youtuBeNeedle = false →
        getVideoId (some u) = none ∧ isYouTubeUrl (some u) = false)
    ∧ (∀ u : URLParts, jsIncludes u.hostname youtuBeNeedle = true →
        getVideoId (some u) = some (u.pathname.drop 1))
    ∧ (∀ (u : URLParts) (rest : List Char),
        jsIncludes u.hostname youtuBeNeedle = true →
        u.pathname = '/' :: rest → getVideoId (some u) = some rest)
    ∧ (∀ u : URLParts, jsIncludes u.hostname youtubeComNeedle = true →
        jsIncludes u.hostname youtuBeNeedle = false →
        getVideoId (some u) = searchParamsGet u.searchParams ("v".toList)) := by
  refine ⟨rfl, rfl, ?_, ?_, ?_, ?_⟩
  · intro u h1 h2
    constructor
    · simp [getVideoId, h1, h2]
    · simp [isYouTubeUrl, h1, h2]
  · intro u h
    simp [getVideoId, h]
  · intro u rest h hp
    simp [getVideoId, h, hp]
  · intro u h1 h2
    simp [getVideoId, h1, h2]

/-- C10 witness: the classifiers at concrete parse results of the two
hostname shapes and of an unrelated host. -/
theorem claim10_witness :
    getVideoId (some ⟨"youtu.be".toList, "/abc".toList, []⟩) = some ("abc".toList)
    ∧ getVideoId (some ⟨"www.youtube.com".toList, "/watch".toList,
        [("v".toList, "xyz".toList)]⟩) = some ("xyz".toList)
    ∧ getVideoId (some ⟨"example.com".toList, "/watch".toList, []⟩) = none := by
  refine ⟨?_, ?_, ?_⟩
  · exact claim10_url_classifiers.2.2.2.2.1 ⟨"youtu.be".toList, "/abc".toList, []⟩
      ("abc".toList) (by decide) (by decide)
  · rw [claim10_url_classifiers.2.2.2.2.2 ⟨"www.youtube.com".toList, "/watch".toList,
      [("v".toList, "xyz".toList)]⟩ (by decide) (by decide)]
    decide
  · exact (claim10_url_classifiers.2.2.1 ⟨"example.com".toList, "/watch".toList, []⟩
      (by decide) (by decide)).1

/-! ## Lemmas about the Sentence Segmenter -/

theorem buildSentences_length (idx : Nat) (off d : ℚ) :
    ∀ (ts : List (List Char)) (j : Nat), (buildSentences idx off d j ts).length = ts.length := by
  intro ts
  induction ts with
  | nil => intro j; rfl
  | cons t rest ih => intro j; simp [buildSentences, ih]

theorem buildSentences_get (idx : Nat) (off d : ℚ) :
    ∀ (ts : List (List Char)) (j i : Nat) (h : i < (buildSentences idx off d j ts).length),
    ((buildSentences idx off d j ts).get ⟨i, h⟩).startOffset = off + ((j : ℚ) + (i : ℚ)) * d
    ∧ ((buildSentences idx off d j ts).get ⟨i, h⟩).endOffset = off + ((j : ℚ) + (i : ℚ)) * d + d := by
  intro ts
  induction ts with
  | nil => intro j i h; simp [buildSentences] at h
  | cons t rest ih =>
    intro j i h
    cases i with
    | zero => simp [buildSentences]
    | succ i =>
      have h2 : i < (buildSentences idx off d (j + 1) rest).length := by
        simpa [buildSentences] using h
      have := ih (j + 1) i h2
      constructor
      · rw [show ((buildSentences idx off d j (t :: rest)).get ⟨i + 1, h⟩)
            = (buildSentences idx off d (j + 1) rest).get ⟨i, h2⟩ from rfl, this.1]
        push_cast
        ring
      · rw [show ((buildSentences idx off d j (t :: rest)).get ⟨i + 1, h⟩)
            = (buildSentences idx off d (j + 1) rest).get ⟨i, h2⟩ from rfl, this.2]
        push_cast
        ring

theorem buildSentences_sum (idx : Nat) (off d : ℚ) :
    ∀ (ts : List (List Char)) (j : Nat),
    ((buildSentences idx off d j ts).map fun s => s.endOffset - s.startOffset).sum
      = (ts.length : ℚ) * d := by
  intro ts
  induction ts with
  | nil => intro j; simp [buildSentences]
  | cons t rest ih =>
    intro j
    simp only [buildSentences, List.map_cons, List.sum_cons, ih, List.length_cons]
    push_cast
    ring

theorem buildSentences_mem (idx : Nat) (off d : ℚ) :
    ∀ (ts : List (List Char)) (j : Nat) (s : TranscriptSentence),
    s ∈ buildSentences idx off d j ts → s.endOffset - s.startOffset = d := by
  intro ts
  induction ts with
  | nil => intro j s h; simp [buildSentences] at h
  | cons t rest ih =>
    intro j s h
    rw [buildSentences, List.mem_cons] at h
    rcases h with h | h
    · subst h; ring
    · exact ih (j + 1) s h

theorem replacePunctWs_id {l : List Char}
    (h : ∀ c ∈ l, isSentencePunct c = false) : replacePunctWs l = l := by
  unfold replacePunctWs
  induction l with
  | nil => rfl
  | cons c rest ih =>
    have hc : isSentencePunct c = false := h c (List.mem_cons_self c rest)
    rw [replacePunctWsAux, if_neg (by simp), if_neg (by simp [hc])]
    rw [ih fun d hd => h d (List.mem_cons_of_mem c hd)]

theorem splitOnChar_of_not_mem {sep : Char} :
    ∀ {l : List Char}, sep ∉ l → splitOnChar sep l = [l] := by
  intro l
  induction l with
  | nil => intro _; rfl
  | cons c rest ih =>
    intro h
    have hc : c ≠ sep := fun hcs => h (hcs ▸ List.mem_cons_self c rest)
    have hrest : sep ∉ rest := fun hm => h (List.mem_cons_of_mem c hm)
    rw [splitOnChar, if_neg hc, ih hrest]

theorem splitIntoSentences_plain {text : List Char}
    (hp : ∀ c ∈ text, isSentencePunct c = false) (hb : '|' ∉ text) :
    splitIntoSentences text = if 0 < (trimWs text).length then [trimWs text] else [] := by
  unfold splitIntoSentences
  rw [replacePunctWs_id hp, splitOnChar_of_not_mem hb]
  by_cases h : 0 < (trimWs text).length <;> simp [h]

/-! ## Claims about the Sentence Segmenter -/

/-- C1: each line distributes its duration evenly over the sentences it
produces: sentence i spans the interval from offset + i shares to
offset + i + 1 shares of duration / N; for a line that produces at
least one sentence the durations sum back to the line duration; the
sentence intervals of a line are contiguous and, for a non-negative
duration, non-overlapping; and the two-sentence example line splits
into two 2000 millisecond sentences. -/
theorem claim1_sentence_even_split :
    (∀ (idx : Nat) (line : TranscriptLine) (i : Nat)
        (h : i < (sentencesOfLine idx line).length),
        ((sentencesOfLine idx line).get ⟨i, h⟩).startOffset
          = line.offset + (i : ℚ)
              * (line.duration / ((splitIntoSentences line.text).length : ℚ))
        ∧ ((sentencesOfLine idx line).get ⟨i, h⟩).endOffset
          = line.offset + ((i : ℚ) + 1)
              * (line.duration / ((splitIntoSentences line.text).length : ℚ)))
    ∧ (∀ (idx : Nat) (line : TranscriptLine),
        1 ≤ (splitIntoSentences line.text).length →
        ((sentencesOfLine idx line).map fun s => s.endOffset - s.startOffset).sum
          = line.duration)
    ∧ (∀ (idx : Nat) (line : TranscriptLine) (i : Nat)
        (h : i + 1 < (sentencesOfLine idx line).length),
        ((sentencesOfLine idx line).get ⟨i, Nat.lt_of_succ_lt h⟩).endOffset
          = ((sentencesOfLine idx line).get ⟨i + 1, h⟩).startOffset)
    ∧ (∀ (idx : Nat) (line : TranscriptLine), 0 ≤ line.duration →
        ∀ (i j : Nat) (hj : j < (sentencesOfLine idx line).length) (hij : i < j),
        ((sentencesOfLine idx line).get ⟨i, Nat.lt_trans hij hj⟩).endOffset
          ≤ ((sentencesOfLine idx line).get ⟨j, hj⟩).startOffset)
    ∧ (sentencesOfLine 0 ⟨"Hello world. Nice day!".toList, 0, 4000⟩).map
        (fun s => (s.text, s.startOffset, s.endOffset))
      = [("Hello world.".toList, 0, 2000), ("Nice day!".toList, 2000, 4000)] := by
  have hget : ∀ (idx : Nat) (line : TranscriptLine) (i : Nat)
      (h : i < (sentencesOfLine idx line).length),
      ((sentencesOfLine idx line).get ⟨i, h⟩).startOffset
        = line.offset + (i : ℚ)
            * (line.duration / ((splitIntoSentences line.text).length : ℚ))
      ∧ ((sentencesOfLine idx line).get ⟨i, h⟩).endOffset
        = line.offset + ((i : ℚ) + 1)
            * (line.duration / ((splitIntoSentences line.text).length : ℚ)) := by
    intro idx line i h
    have := buildSentences_get idx line.offset
      (line.duration / ((splitIntoSentences line.text).length : ℚ))
      (splitIntoSentences line.text) 0 i (by simpa [sentencesOfLine] using h)
    constructor
    · rw [show ((sentencesOfLine idx line).get ⟨i, h⟩)
          = (buildSentences idx line.offset
              (line.duration / ((splitIntoSentences line.text).length : ℚ)) 0
              (splitIntoSentences line.text)).get
              ⟨i, by simpa [sentencesOfLine] using h⟩ from rfl, this.1]
      push_cast
      ring
    · rw [show ((sentencesOfLine idx line).get ⟨i, h⟩)
          = (buildSentences idx line.offset
              (line.duration / ((splitIntoSentences line.text).length : ℚ)) 0
              (splitIntoSentences line.text)).get
              ⟨i, by simpa [sentencesOfLine] using h⟩ from rfl, this.2]
      push_cast
      ring
  refine ⟨hget, ?_, ?_, ?_, ?_⟩
  · intro idx line hn
    have hs := buildSentences_sum idx line.offset
      (line.duration / ((splitIntoSentences line.text).length : ℚ))
      (splitIntoSentences line.text) 0
    have hne : ((splitIntoSentences line.text).length : ℚ) ≠ 0 :=
      Nat.cast_ne_zero.2 (Nat.one_le_iff_ne_zero.1 hn)
    rw [show (sentencesOfLine idx line)
        = buildSentences idx line.offset
            (line.duration / ((splitIntoSentences line.text).length : ℚ)) 0
            (splitIntoSentences line.text) from rfl, hs,
      mul_div_cancel₀ _ hne]
  · intro idx line i h
    rw [(hget idx line i (Nat.lt_of_succ_lt h)).2, (hget idx line (i + 1) h).1]
    push_cast
    ring
  · intro idx line hdur i j hj hij
    rw [(hget idx line i (Nat.lt_trans hij hj)).2, (hget idx line j hj).1]
    have hd : 0 ≤ line.duration / ((splitIntoSentences line.text).length : ℚ) :=
      div_nonneg hdur (Nat.cast_nonneg _)
    have hij2 : (i : ℚ) + 1 ≤ (j : ℚ) := by exact_mod_cast hij
    exact add_le_add_left (mul_le_mul_of_nonneg_right hij2 hd) _
  · have hsplit : splitIntoSentences ("Hello world. Nice day!".toList)
        = ["Hello world.".toList, "Nice day!".toList] := by decide
    simp only [sentencesOfLine, hsplit]
    norm_num [buildSentences]

/-- C1 witness: the durations of the two sentences of the example line
sum to the original 4000 milliseconds. -/
theorem claim1_witness :
    ((sentencesOfLine 0 ⟨"Hello world. Nice day!".toList, 0, 4000⟩).map
        fun s => s.endOffset - s.startOffset).sum = 4000 :=
  claim1_sentence_even_split.2.1 0 ⟨"Hello world. Nice day!".toList, 0, 4000⟩
    (by decide)

/-- C9 counterexample: the line a|b contains no sentence-terminal
punctuation and its trimmed text is non-empty, yet the segmenter
produces two sentences for it rather than exactly one spanning the
whole line, because the bar sentinel of the splitting step collides
with a literal bar in the text. -/
theorem claim9_counterexample :
    (("a|b".toList).all fun c => !isSentencePunct c) = true
    ∧ trimWs ("a|b".toList) ≠ []
    ∧ (sentencesOfLine 0 ⟨"a|b".toList, 0, 1000⟩).length = 2 := by
  refine ⟨by decide, by decide, ?_⟩
  have hsplit : splitIntoSentences ("a|b".toList) = ["a".toList, "b".toList] := by decide
  rw [show (sentencesOfLine 0 ⟨"a|b".toList, 0, 1000⟩)
      = buildSentences 0 (0 : ℚ)
          ((1000 : ℚ) / ((splitIntoSentences ("a|b".toList)).length : ℚ)) 0
          (splitIntoSentences ("a|b".toList)) from rfl,
    buildSentences_length, hsplit]
  rfl

/-- C9 amended: the duration divisor always counts the non-empty
trimmed fragments and is at least one whenever a sentence is produced,
so no division by zero occurs; a line whose text yields no sentences
contributes nothing; a line with no sentence-terminal punctuation, no
literal bar character and non-whitespace content yields exactly one
sentence spanning the whole line; and a line of zero duration is
segmented into zero-length sentence intervals without failing. -/
theorem claim9_segmenter_safety :
    (∀ (idx : Nat) (line : TranscriptLine) (s : TranscriptSentence),
        s ∈ sentencesOfLine idx line →
        1 ≤ (splitIntoSentences line.text).length
        ∧ s.endOffset - s.startOffset
            = line.duration / ((splitIntoSentences line.text).length : ℚ))
    ∧ (∀ (idx : Nat) (line : TranscriptLine),
        splitIntoSentences line.text = [] → sentencesOfLine idx line = [])
    ∧ (∀ (idx : Nat) (line : TranscriptLine),
        (∀ c ∈ line.text, isSentencePunct c = false) → '|' ∉ line.text →
        trimWs line.text ≠ [] →
        sentencesOfLine idx line
          = [⟨trimWs line.text, line.offset, line.offset + line.duration, idx⟩])
    ∧ (∀ (idx : Nat) (line : TranscriptLine), line.duration = 0 →
        ∀ s ∈ sentencesOfLine idx line, s.endOffset = s.startOffset) := by
  have hmem : ∀ (idx : Nat) (line : TranscriptLine) (s : TranscriptSentence),
      s ∈ sentencesOfLine idx line →
      1 ≤ (splitIntoSentences line.text).length
      ∧ s.endOffset - s.startOffset
          = line.duration / ((splitIntoSentences line.text).length : ℚ) := by
    intro idx line s h
    rw [show (sentencesOfLine idx line)
        = buildSentences idx line.offset
            (line.duration / ((splitIntoSentences line.text).length : ℚ)) 0
            (splitIntoSentences line.text) from rfl] at h
    refine ⟨?_, buildSentences_mem _ _ _ _ 0 s h⟩
    by_contra hlen
    have : splitIntoSentences line.text = [] := by
      cases hx : splitIntoSentences line.text with
      | nil => rfl
      | cons a rest => rw [hx] at hlen; simp at hlen
    rw [this] at h
    simp [buildSentences] at h
  refine ⟨hmem, ?_, ?_, ?_⟩
  · intro idx line h
    rw [show (sentencesOfLine idx line)
        = buildSentences idx line.offset
            (line.duration / ((splitIntoSentences line.text).length : ℚ)) 0
            (splitIntoSentences line.text) from rfl, h]
    rfl
  · intro idx line hp hb ht
    have hsplit : splitIntoSentences line.text = [trimWs line.text] := by
      rw [splitIntoSentences_plain hp hb,
        if_pos (List.length_pos.2 ht)]
    rw [show (sentencesOfLine idx line)
        = buildSentences idx line.offset
            (line.duration / ((splitIntoSentences line.text).length : ℚ)) 0
            (splitIntoSentences line.text) from rfl, hsplit]
    simp [buildSentences]
  · intro idx line hd s h
    have := (hmem idx line s h).2
    rw [hd, zero_div, sub_eq_zero] at this
    exact this

/-- C9 witness: a punctuation-free, bar-free line becomes one sentence
spanning the whole line, and a zero-duration line yields a zero-length
sentence interval. -/
theorem claim9_witness :
    sentencesOfLine 3 ⟨"hello world".toList, 5, 70⟩
      = [⟨"hello world".toList, 5, 75, 3⟩]
    ∧ ∀ s ∈ sentencesOfLine 0 ⟨"Hi there. Bye.".toList, 9, 0⟩,
        s.endOffset = s.startOffset := by
  constructor
  · have h := claim9_segmenter_safety.2.2.1 3 ⟨"hello world".toList, 5, 70⟩
      (by decide) (by decide) (by decide)
    rw [h]
    norm_num
    decide
  · exact claim9_segmenter_safety.2.2.2 0 ⟨"Hi there. Bye.".toList, 9, 0⟩ rfl

/-! ## Lemmas about the Paragraph Grouper -/

theorem chunkParagraphs_length : ∀ ss : List TranscriptSentence,
    (chunkParagraphs ss).length = (ss.length + 2) / 3 := by
  intro ss
  induction ss using chunkParagraphs.induct with
  | case1 => rfl
  | case2 a => simp [chunkParagraphs]
  | case3 a b => simp [chunkParagraphs]
  | case4 a b c rest ih =>
    simp only [chunkParagraphs, List.length_cons, ih]
    omega

theorem chunkParagraphs_join : ∀ ss : List TranscriptSentence,
    ((chunkParagraphs ss).map TranscriptParagraph.sentences).flatten = ss := by
  intro ss
  induction ss using chunkParagraphs.induct with
  | case1 => rfl
  | case2 a => simp [chunkParagraphs, mkParagraph]
  | case3 a b => simp [chunkParagraphs, mkParagraph]
  | case4 a b c rest ih =>
    simp [chunkParagraphs, mkParagraph, ih]

theorem chunkParagraphs_mem_size : ∀ ss : List TranscriptSentence,
    ∀ p ∈ chunkParagraphs ss, 1 ≤ p.sentences.length ∧ p.sentences.length ≤ 3 := by
  intro ss
  induction ss using chunkParagraphs.induct with
  | case1 => intro p hp; simp [chunkParagraphs] at hp
  | case2 a =>
    intro p hp
    rw [chunkParagraphs, List.mem_singleton] at hp
    subst hp
    exact ⟨by simp [mkParagraph], by simp [mkParagraph]⟩
  | case3 a b =>
    intro p hp
    rw [chunkParagraphs, List.mem_singleton] at hp
    subst hp
    exact ⟨by simp [mkParagraph], by simp [mkParagraph]⟩
  | case4 a b c rest ih =>
    intro p hp
    rw [chunkParagraphs, List.mem_cons] at hp
    rcases hp with hp | hp
    · subst hp
      exact ⟨by simp [mkParagraph], by simp [mkParagraph]⟩
    · exact ih p hp

theorem chunkParagraphs_nonfinal : ∀ (ss : List TranscriptSentence) (i : Nat)
    (h : i + 1 < (chunkParagraphs ss).length),
    ((chunkParagraphs ss).get ⟨i, Nat.lt_of_succ_lt h⟩).sentences.length = 3 := by
  intro ss
  induction ss using chunkParagraphs.induct with
  | case1 => intro i h; simp [chunkParagraphs] at h
  | case2 a => intro i h; rw [chunkParagraphs] at h; simp at h
  | case3 a b => intro i h; rw [chunkParagraphs] at h; simp at h
  | case4 a b c rest ih =>
    intro i h
    cases i with
    | zero => rfl
    | succ i =>
      have h2 : i + 1 < (chunkParagraphs rest).length := by
        rw [chunkParagraphs, List.length_cons] at h
        omega
      have := ih i h2
      rw [show ((chunkParagraphs (a :: b :: c :: rest)).get
          ⟨i + 1, Nat.lt_of_succ_lt h⟩)
          = (chunkParagraphs rest).get ⟨i, Nat.lt_of_succ_lt h2⟩ from rfl]
      exact this

theorem chunkParagraphs_offsets : ∀ ss : List TranscriptSentence,
    ∀ p ∈ chunkParagraphs ss,
    p.sentences.head?.map TranscriptSentence.startOffset = some p.startOffset
    ∧ p.sentences.getLast?.map TranscriptSentence.endOffset = some p.endOffset := by
  intro ss
  induction ss using chunkParagraphs.induct with
  | case1 => intro p hp; simp [chunkParagraphs] at hp
  | case2 a =>
    intro p hp
    rw [chunkParagraphs, List.mem_singleton] at hp
    subst hp
    exact ⟨rfl, rfl⟩
  | case3 a b =>
    intro p hp
    rw [chunkParagraphs, List.mem_singleton] at hp
    subst hp
    exact ⟨rfl, rfl⟩
  | case4 a b c rest ih =>
    intro p hp
    rw [chunkParagraphs, List.mem_cons] at hp
    rcases hp with hp | hp
    · subst hp
      exact ⟨rfl, rfl⟩
    · exact ih p hp

theorem chunkParagraphs_sizes7 : ∀ ss : List TranscriptSentence, ss.length = 7 →
    (chunkParagraphs ss).map (fun p => p.sentences.length) = [3, 3, 1] := by
  intro ss h
  obtain ⟨a, ss, rfl⟩ := List.exists_of_length_succ ss h
  rw [List.length_cons, Nat.succ_inj] at h
  obtain ⟨b, ss, rfl⟩ := List.exists_of_length_succ ss h
  rw [List.length_cons, Nat.succ_inj] at h
  obtain ⟨c, ss, rfl⟩ := List.exists_of_length_succ ss h
  rw [List.length_cons, Nat.succ_inj] at h
  obtain ⟨d, ss, rfl⟩ := List.exists_of_length_succ ss h
  rw [List.length_cons, Nat.succ_inj] at h
  obtain ⟨e, ss, rfl⟩ := List.exists_of_length_succ ss h
  rw [List.length_cons, Nat.succ_inj] at h
  obtain ⟨f, ss, rfl⟩ := List.exists_of_length_succ ss h
  rw [List.length_cons, Nat.succ_inj] at h
  obtain ⟨g, ss, rfl⟩ := List.exists_of_length_succ ss h
  rw [List.length_cons, Nat.succ_inj] at h
  rw [List.length_eq_zero.1 h]
  rfl

/-! ## Claims about the Paragraph Grouper -/

/-- C2: the grouper returns the ceiling of N over 3 paragraphs; every
paragraph except possibly the final one holds exactly 3 sentences and
every paragraph holds between 1 and 3; the concatenation of the
paragraph sentence lists is exactly the input sequence, so membership
is exhaustive, non-overlapping and in source order; paragraph offsets
come from the first and last member sentence; the empty input yields
the empty output; and 7 sentences yield paragraphs of sizes 3, 3, 1. -/
theorem claim2_paragraph_grouping :
    (∀ ss : List TranscriptSentence,
        (chunkParagraphs ss).length = (ss.length + 2) / 3)
    ∧ (∀ (ss : List TranscriptSentence) (i : Nat)
        (h : i + 1 < (chunkParagraphs ss).length),
        ((chunkParagraphs ss).get ⟨i, Nat.lt_of_succ_lt h⟩).sentences.length = 3)
    ∧ (∀ ss : List TranscriptSentence, ∀ p ∈ chunkParagraphs ss,
        1 ≤ p.sentences.length ∧ p.sentences.length ≤ 3)
    ∧ (∀ ss : List TranscriptSentence,
        ((chunkParagraphs ss).map TranscriptParagraph.sentences).flatten = ss)
    ∧ (∀ ss : List TranscriptSentence, ∀ p ∈ chunkParagraphs ss,
        p.sentences.head?.map TranscriptSentence.startOffset = some p.startOffset
        ∧ p.sentences.getLast?.map TranscriptSentence.endOffset = some p.endOffset)
    ∧ chunkParagraphs [] = []
    ∧ (∀ ss : List TranscriptSentence, ss.length = 7 →
        (chunkParagraphs ss).map (fun p => p.sentences.length) = [3, 3, 1]) :=
  ⟨chunkParagraphs_length, chunkParagraphs_nonfinal, chunkParagraphs_mem_size,
    chunkParagraphs_join, chunkParagraphs_offsets, rfl, chunkParagraphs_sizes7⟩

/-- C2 witness: seven concrete sentences produce paragraph sizes 3, 3,
1. -/
theorem claim2_witness :
    (chunkParagraphs (List.replicate 7 ⟨[], 0, 0, 0⟩)).map
      (fun p => p.sentences.length) = [3, 3, 1] :=
  claim2_paragraph_grouping.2.2.2.2.2.2 (List.replicate 7 ⟨[], 0, 0, 0⟩)
    (List.length_replicate 7 _)

/-! ## Lemmas about decimal digits -/

theorem digitChar_isDigit : ∀ n : Nat, (digitChar n).isDigit = true := by
  intro n
  unfold digitChar
  split_ifs <;> decide

theorem digitVal_digitChar : ∀ n : Nat, n < 10 → digitVal (digitChar n) = n := by
  intro n h
  interval_cases n <;> decide

theorem natDigitsAux_append : ∀ (fuel : Nat), ∀ (n : Nat) (acc : List Char),
    natDigitsAux fuel n acc = natDigitsAux fuel n [] ++ acc := by
  intro fuel
  induction fuel with
  | zero => intro n acc; rfl
  | succ fuel ih =>
    intro n acc
    rw [natDigitsAux, natDigitsAux]
    by_cases h : n < 10
    · rw [if_pos h, if_pos h]
      rfl
    · rw [if_neg h, if_neg h, ih (n / 10) (digitChar (n % 10) :: acc),
        ih (n / 10) [digitChar (n % 10)]]
      simp

theorem natDigitsAux_fuel : ∀ (f1 f2 n : Nat) (acc : List Char), n < f1 → n < f2 →
    natDigitsAux f1 n acc = natDigitsAux f2 n acc := by
  intro f1
  induction f1 with
  | zero => intro f2 n acc h1; omega
  | succ f1 ih =>
    intro f2 n acc h1 h2
    cases f2 with
    | zero => omega
    | succ f2 =>
      rw [natDigitsAux, natDigitsAux]
      by_cases h : n < 10
      · rw [if_pos h, if_pos h]
      · rw [if_neg h, if_neg h]
        exact ih f2 (n / 10) _ (by omega) (by omega)

theorem natDigits_lt10 {n : Nat} (h : n < 10) : natDigits n = [digitChar n] := by
  rw [natDigits, natDigitsAux, if_pos h]

theorem natDigits_ge10 {n : Nat} (h : 10 ≤ n) :
    natDigits n = natDigits (n / 10) ++ [digitChar (n % 10)] := by
  rw [natDigits, natDigitsAux, if_neg (by omega),
    natDigitsAux_fuel n (n / 10 + 1) (n / 10) _ (by omega) (by omega),
    natDigitsAux_append (n / 10 + 1) (n / 10) [digitChar (n % 10)]]
  rfl

theorem natDigits_ne_nil (n : Nat) : natDigits n ≠ [] := by
  by_cases h : n < 10
  · rw [natDigits_lt10 h]
    simp
  · rw [natDigits_ge10 (by omega)]
    simp

theorem natDigits_all (n : Nat) : (natDigits n).all Char.isDigit = true := by
  induction n using Nat.strong_induction_on with
  | _ n ih =>
    by_cases h : n < 10
    · rw [natDigits_lt10 h]
      simp [digitChar_isDigit]
    · rw [natDigits_ge10 (by omega), List.all_append]
      simp [ih (n / 10) (by omega), digitChar_isDigit]

theorem not_mem_natDigits {c : Char} (hc : c.isDigit = false) (n : Nat) :
    c ∉ natDigits n := by
  intro hm
  have := List.all_eq_true.1 (natDigits_all n) c hm
  rw [hc] at this
  exact Bool.noConfusion this

theorem parseDigitsFrom_append : ∀ (l1 l2 : List Char) (a : Nat),
    parseDigitsFrom a (l1 ++ l2) = parseDigitsFrom (parseDigitsFrom a l1) l2 := by
  intro l1
  induction l1 with
  | nil => intro l2 a; rfl
  | cons c l1 ih => intro l2 a; exact ih l2 (a * 10 + digitVal c)

theorem parseDigitsFrom_natDigits : ∀ (n a : Nat),
    parseDigitsFrom a (natDigits n) = a * 10 ^ (natDigits n).length + n := by
  intro n
  induction n using Nat.strong_induction_on with
  | _ n ih =>
    intro a
    by_cases h : n < 10
    · rw [natDigits_lt10 h,
        show parseDigitsFrom a [digitChar n] = a * 10 + digitVal (digitChar n) from rfl,
        digitVal_digitChar n h, List.length_singleton, pow_one]
    · rw [natDigits_ge10 (by omega), parseDigitsFrom_append, ih (n / 10) (by omega) a,
        show parseDigitsFrom (a * 10 ^ (natDigits (n / 10)).length + n / 10)
            [digitChar (n % 10)]
          = (a * 10 ^ (natDigits (n / 10)).length + n / 10) * 10
            + digitVal (digitChar (n % 10)) from rfl,
        digitVal_digitChar (n % 10) (by omega), List.length_append,
        List.length_singleton]
      have hdm : n / 10 * 10 + n % 10 = n := by omega
      calc (a * 10 ^ (natDigits (n / 10)).length + n / 10) * 10 + n % 10
          = a * (10 ^ (natDigits (n / 10)).length * 10)
              + (n / 10 * 10 + n % 10) := by ring
        _ = a * 10 ^ ((natDigits (n / 10)).length + 1) + n := by
            rw [hdm, pow_succ]

theorem parseDigits_natDigits (n : Nat) : parseDigits (natDigits n) = n := by
  have := parseDigitsFrom_natDigits n 0
  simpa [parseDigits] using this

theorem jsNumber_natDigits (n : Nat) : jsNumber (natDigits n) = some ((n : ℕ) : ℚ) := by
  unfold jsNumber
  rw [if_pos ⟨natDigits_ne_nil n, natDigits_all n⟩, parseDigits_natDigits]

theorem jsNumber_natPadTwo (k : Nat) : jsNumber (natPadTwo k) = some ((k : ℕ) : ℚ) := by
  unfold natPadTwo
  by_cases h : k < 10
  · rw [if_pos h]
    unfold jsNumber
    rw [if_pos ⟨by simp, by simp [natDigits_all k]⟩]
    have hparse : parseDigits ('0' :: natDigits k) = parseDigits (natDigits k) := by
      show parseDigitsFrom (0 * 10 + digitVal '0') (natDigits k) = parseDigitsFrom 0 (natDigits k)
      rw [show 0 * 10 + digitVal '0' = 0 from by decide]
    rw [hparse, parseDigits_natDigits]
  · rw [if_neg h]
    exact jsNumber_natDigits k

theorem not_mem_natPadTwo {c : Char} (hc : c.isDigit = false) (k : Nat) :
    c ∉ natPadTwo k := by
  unfold natPadTwo
  by_cases h : k < 10
  · rw [if_pos h]
    intro hm
    rcases List.mem_cons.1 hm with hm | hm
    · subst hm
      exact Bool.noConfusion hc
    · exact not_mem_natDigits hc k hm
  · rw [if_neg h]
    exact not_mem_natDigits hc k

theorem splitOnChar_append {sep : Char} :
    ∀ {a : List Char}, sep ∉ a → ∀ b : List Char,
    splitOnChar sep (a ++ sep :: b) = a :: splitOnChar sep b := by
  intro a
  induction a with
  | nil =>
    intro _ b
    show splitOnChar sep (sep :: b) = [] :: splitOnChar sep b
    rw [splitOnChar, if_pos rfl]
  | cons c a ih =>
    intro h b
    have hc : c ≠ sep := fun hcs => h (hcs ▸ List.mem_cons_self c a)
    have ha : sep ∉ a := fun hm => h (List.mem_cons_of_mem c hm)
    show splitOnChar sep (c :: (a ++ sep :: b)) = (c :: a) :: splitOnChar sep b
    rw [splitOnChar, if_neg hc, ih ha b]

/-! ## Lemmas about the timestamp floors -/

theorem jsFloor_eq_floor (q : ℚ) : jsFloor q = ⌊q⌋ := Rat.floor_def.symm

theorem floor_nonneg_natFloor (q : ℚ) (h : 0 ≤ q) : ⌊q⌋ = ((⌊q⌋₊ : ℕ) : ℤ) := by
  rw [← Int.floor_toNat, Int.toNat_of_nonneg (Int.floor_nonneg.2 h)]

theorem intDigits_natCast (k : Nat) : intDigits ((k : ℕ) : ℤ) = natDigits k := by
  unfold intDigits
  rw [if_neg (not_lt.2 (Int.natCast_nonneg k)), Int.toNat_natCast]

theorem padTwo_natCast (k : Nat) : padTwo ((k : ℕ) : ℤ) = natPadTwo k := by
  unfold padTwo natPadTwo
  by_cases h : k < 10
  · rw [if_pos (by exact_mod_cast h), if_pos h, intDigits_natCast]
  · rw [if_neg (by exact_mod_cast h), if_neg h, intDigits_natCast]

/-- The value of formatTimestamp on a non-negative rational, expressed
through the natural floor of the input: hours, then zero-padded minutes
and seconds of the floored seconds count. -/
theorem formatTimestamp_floor (q : ℚ) (hq : 0 ≤ q) :
    formatTimestamp (some q)
      = (if 0 < ⌊q⌋₊ / 3600 then natDigits (⌊q⌋₊ / 3600) ++ [':'] else [])
        ++ natPadTwo (⌊q⌋₊ % 3600 / 60) ++ [':'] ++ natPadTwo (⌊q⌋₊ % 60) := by
  have hhours : jsFloor (q / 3600) = ((⌊q⌋₊ / 3600 : ℕ) : ℤ) := by
    rw [jsFloor_eq_floor, floor_nonneg_natFloor _ (by positivity),
      Nat.floor_div_ofNat]
  have e1 : q - (((⌊q⌋₊ / 3600 : ℕ) : ℤ) : ℚ) * 3600
      = q - ((⌊q⌋₊ / 3600 * 3600 : ℕ) : ℚ) := by
    rw [Int.cast_natCast]
    push_cast
    ring
  have hk1n : ⌊q⌋₊ / 3600 * 3600 ≤ ⌊q⌋₊ := Nat.div_mul_le_self _ 3600
  have hqk1 : (0 : ℚ) ≤ q - ((⌊q⌋₊ / 3600 * 3600 : ℕ) : ℚ) := by
    have h1 : ((⌊q⌋₊ / 3600 * 3600 : ℕ) : ℚ) ≤ ((⌊q⌋₊ : ℕ) : ℚ) := by
      exact_mod_cast hk1n
    have h2 : ((⌊q⌋₊ : ℕ) : ℚ) ≤ q := Nat.floor_le hq
    linarith
  have hfk1 : ⌊q - ((⌊q⌋₊ / 3600 * 3600 : ℕ) : ℚ)⌋₊ = ⌊q⌋₊ % 3600 := by
    rw [Nat.floor_sub_nat]
    omega
  have hminutes : jsFloor ((q - ((⌊q⌋₊ / 3600 * 3600 : ℕ) : ℚ)) / 60)
      = ((⌊q⌋₊ % 3600 / 60 : ℕ) : ℤ) := by
    rw [jsFloor_eq_floor,
      floor_nonneg_natFloor _ (div_nonneg hqk1 (by norm_num)),
      Nat.floor_div_ofNat, hfk1]
  have e2 : q - ((⌊q⌋₊ / 3600 * 3600 : ℕ) : ℚ)
        - (((⌊q⌋₊ % 3600 / 60 : ℕ) : ℤ) : ℚ) * 60
      = q - ((⌊q⌋₊ / 3600 * 3600 + ⌊q⌋₊ % 3600 / 60 * 60 : ℕ) : ℚ) := by
    rw [Int.cast_natCast]
    push_cast
    ring
  have hk2n : ⌊q⌋₊ / 3600 * 3600 + ⌊q⌋₊ % 3600 / 60 * 60 ≤ ⌊q⌋₊ := by omega
  have hqk2 : (0 : ℚ)
      ≤ q - ((⌊q⌋₊ / 3600 * 3600 + ⌊q⌋₊ % 3600 / 60 * 60 : ℕ) : ℚ) := by
    have h1 : ((⌊q⌋₊ / 3600 * 3600 + ⌊q⌋₊ % 3600 / 60 * 60 : ℕ) : ℚ)
        ≤ ((⌊q⌋₊ : ℕ) : ℚ) := by exact_mod_cast hk2n
    have h2 : ((⌊q⌋₊ : ℕ) : ℚ) ≤ q := Nat.floor_le hq
    linarith
  have hfk2 : ⌊q - ((⌊q⌋₊ / 3600 * 3600 + ⌊q⌋₊ % 3600 / 60 * 60 : ℕ) : ℚ)⌋₊
      = ⌊q⌋₊ % 60 := by
    rw [Nat.floor_sub_nat]
    omega
  have hseconds : jsFloor
        (q - ((⌊q⌋₊ / 3600 * 3600 + ⌊q⌋₊ % 3600 / 60 * 60 : ℕ) : ℚ))
      = ((⌊q⌋₊ % 60 : ℕ) : ℤ) := by
    rw [jsFloor_eq_floor, floor_nonneg_natFloor _ hqk2, hfk2]
  simp only [formatTimestamp]
  rw [hhours, e1, hminutes, e2, hseconds]
  simp only [intDigits_natCast, padTwo_natCast, Int.natCast_pos]

/-- formatTimestamp at a natural number of seconds. -/
theorem formatTimestamp_natCast (s : Nat) :
    formatTimestamp (some ((s : ℕ) : ℚ))
      = (if 0 < s / 3600 then natDigits (s / 3600) ++ [':'] else [])
        ++ natPadTwo (s % 3600 / 60) ++ [':'] ++ natPadTwo (s % 60) := by
  rw [formatTimestamp_floor _ (Nat.cast_nonneg s), Nat.floor_natCast]

/-- The round trip at a natural number of seconds. -/
theorem parse_format_natCast (s : Nat) :
    convertTimestampToSeconds (formatTimestamp (some ((s : ℕ) : ℚ)))
      = some ((s : ℕ) : ℚ) := by
  rw [formatTimestamp_natCast]
  have hcd : (':').isDigit = false := by decide
  have hdm : ':' ∉ natPadTwo (s % 3600 / 60) := not_mem_natPadTwo hcd _
  have hds : ':' ∉ natPadTwo (s % 60) := not_mem_natPadTwo hcd _
  by_cases h : 0 < s / 3600
  · rw [if_pos h]
    have hshape : natDigits (s / 3600) ++ [':'] ++ natPadTwo (s % 3600 / 60)
          ++ [':'] ++ natPadTwo (s % 60)
        = natDigits (s / 3600)
            ++ ':' :: (natPadTwo (s % 3600 / 60) ++ ':' :: natPadTwo (s % 60)) := by
      simp
    rw [hshape, convertTimestampToSeconds.eq_def,
      splitOnChar_append (not_mem_natDigits hcd _),
      splitOnChar_append hdm, splitOnChar_of_not_mem hds]
    rw [List.map_cons, List.map_cons, List.map_cons, List.map_nil,
      jsNumber_natDigits, jsNumber_natPadTwo, jsNumber_natPadTwo]
    rw [show (match [some ((s / 3600 : ℕ) : ℚ), some ((s % 3600 / 60 : ℕ) : ℚ),
          some ((s % 60 : ℕ) : ℚ)] with
        | [a, b, c] => optAdd (optAdd (optAdd (some 0) (optMul a 3600)) (optMul b 60)) c
        | [a, b] => optAdd (optAdd (some 0) (optMul a 60)) b
        | ps => optAdd (some 0) (ps.headD none))
        = some (0 + ((s / 3600 : ℕ) : ℚ) * 3600 + ((s % 3600 / 60 : ℕ) : ℚ) * 60
            + ((s % 60 : ℕ) : ℚ)) from rfl]
    refine congrArg some ?_
    have hval : s / 3600 * 3600 + s % 3600 / 60 * 60 + s % 60 = s := by omega
    have hcast : ((s : ℕ) : ℚ)
        = ((s / 3600 * 3600 + s % 3600 / 60 * 60 + s % 60 : ℕ) : ℚ) := by
      rw [hval]
    rw [hcast]
    push_cast
    ring
  · rw [if_neg h]
    have hshape : ([] : List Char) ++ natPadTwo (s % 3600 / 60)
          ++ [':'] ++ natPadTwo (s % 60)
        = natPadTwo (s % 3600 / 60) ++ ':' :: natPadTwo (s % 60) := by
      simp
    rw [hshape, convertTimestampToSeconds.eq_def, splitOnChar_append hdm,
      splitOnChar_of_not_mem hds]
    rw [List.map_cons, List.map_cons, List.map_nil,
      jsNumber_natPadTwo, jsNumber_natPadTwo]
    rw [show (match [some ((s % 3600 / 60 : ℕ) : ℚ), some ((s % 60 : ℕ) : ℚ)] with
        | [a, b, c] => optAdd (optAdd (optAdd (some 0) (optMul a 3600)) (optMul b 60)) c
        | [a, b] => optAdd (optAdd (some 0) (optMul a 60)) b
        | ps => optAdd (some 0) (ps.headD none))
        = some (0 + ((s % 3600 / 60 : ℕ) : ℚ) * 60 + ((s % 60 : ℕ) : ℚ)) from rfl]
    refine congrArg some ?_
    have hval : s % 3600 / 60 * 60 + s % 60 = s := by omega
    have hcast : ((s : ℕ) : ℚ) = ((s % 3600 / 60 * 60 + s % 60 : ℕ) : ℚ) := by
      rw [hval]
    rw [hcast]
    push_cast
    ring

/-! ## Claims about the timestamp codec -/

/-- C5: parsing the formatted timestamp of any non-negative integer
number of seconds returns it exactly, and the concrete value 3723
formats as 1:02:03 and parses back to 3723. -/
theorem claim5_timestamp_round_trip :
    (∀ s : Nat, convertTimestampToSeconds (formatTimestamp (some (s : ℚ))) = some (s : ℚ))
    ∧ formatTimestamp (some (3723 : ℚ)) = "1:02:03".toList
    ∧ convertTimestampToSeconds ("1:02:03".toList) = some (3723 : ℚ) := by
  have hfmt : formatTimestamp (some (3723 : ℚ)) = "1:02:03".toList := by
    have h := formatTimestamp_natCast 3723
    rw [show (((3723 : ℕ) : ℚ)) = (3723 : ℚ) from by norm_num] at h
    rw [h]
    decide
  have hparse : convertTimestampToSeconds ("1:02:03".toList) = some (3723 : ℚ) := by
    rw [← hfmt]
    have h := parse_format_natCast 3723
    rw [show (((3723 : ℕ) : ℚ)) = (3723 : ℚ) from by norm_num] at h
    exact h
  exact ⟨fun s => parse_format_natCast s, hfmt, hparse⟩

/-- Helper to evaluate formatTimestamp from the three floor values. -/
theorem formatTimestamp_eval (q : ℚ) (h m s : ℤ)
    (hh : ⌊q / 3600⌋ = h)
    (hm : ⌊(q - (h : ℚ) * 3600) / 60⌋ = m)
    (hs : ⌊q - (h : ℚ) * 3600 - (m : ℚ) * 60⌋ = s) :
    formatTimestamp (some q)
      = (if 0 < h then intDigits h ++ [':'] else [])
        ++ padTwo m ++ [':'] ++ padTwo s := by
  simp only [formatTimestamp, jsFloor_eq_floor, hh, hm, hs]

/-- C8 counterexample: at the negative fractional input minus one half,
formatTimestamp floors rather than truncates: the source renders 59:59
while the truncating reading of the claim renders 00:00. -/
theorem claim8_counterexample :
    formatTimestamp (some (-(1 : ℚ) / 2)) = "59:59".toList
    ∧ formatTimestampTruncSpec (-(1 : ℚ) / 2) = "00:00".toList
    ∧ formatTimestamp (some (-(1 : ℚ) / 2))
        ≠ formatTimestampTruncSpec (-(1 : ℚ) / 2) := by
  have h1 : formatTimestamp (some (-(1 : ℚ) / 2)) = "59:59".toList := by
    rw [formatTimestamp_eval (-(1 : ℚ) / 2) (-1) 59 59 ?_ ?_ ?_]
    · decide
    · rw [Int.floor_eq_iff]
      norm_num
    · rw [Int.floor_eq_iff]
      norm_num
    · rw [Int.floor_eq_iff]
      norm_num
  have htr : truncQ (-(1 : ℚ) / 2) = 0 := by
    unfold truncQ
    rw [if_neg (by norm_num), Int.ceil_eq_iff]
    norm_num
  have h2 : formatTimestampTruncSpec (-(1 : ℚ) / 2) = "00:00".toList := by
    simp only [formatTimestampTruncSpec, htr]
    decide
  refine ⟨h1, h2, ?_⟩
  rw [h1, h2]
  decide

/-- C8 amended: for every non-negative input the formatter agrees with
the truncating spec rendering, hours unpadded and omitted when not
positive, minutes and seconds zero-padded to two digits; the undefined
input yields the empty string. On negative fractional inputs the code
floors instead of truncating, as the counterexample shows. -/
theorem claim8_formatter_trunc :
    (∀ q : ℚ, 0 ≤ q → formatTimestamp (some q) = formatTimestampTruncSpec q)
    ∧ formatTimestamp none = [] := by
  refine ⟨?_, rfl⟩
  intro q hq
  rw [formatTimestamp_floor q hq]
  have htr : truncQ q = ((⌊q⌋₊ : ℕ) : ℤ) := by
    unfold truncQ
    rw [if_pos hq, floor_nonneg_natFloor q hq]
  have c1 : ((⌊q⌋₊ : ℕ) : ℤ) / 3600 = ((⌊q⌋₊ / 3600 : ℕ) : ℤ) := by omega
  have c2 : ((⌊q⌋₊ : ℕ) : ℤ) % 3600 / 60 = ((⌊q⌋₊ % 3600 / 60 : ℕ) : ℤ) := by omega
  have c3 : ((⌊q⌋₊ : ℕ) : ℤ) % 60 = ((⌊q⌋₊ % 60 : ℕ) : ℤ) := by omega
  simp only [formatTimestampTruncSpec, htr, c1, c2, c3, intDigits_natCast,
    padTwo_natCast, Int.natCast_pos]

/-- C8 witness: the flooring formatter and the truncating spec rendering
agree at the non-negative fractional input seven halves. -/
theorem claim8_witness :
    formatTimestamp (some ((7 : ℚ) / 2)) = formatTimestampTruncSpec ((7 : ℚ) / 2) :=
  claim8_formatter_trunc.1 ((7 : ℚ) / 2) (by norm_num)

end MediaNotes
